import Mathlib

/-!
Shallow embedding of the WILD-ONe data-visualization tools:
`toolbox.py` (widget classes `VarWindow`, `SelectedWindow`, `ConditionSelect`,
`Filter`, `DateEntry`, `VarSelector`) and `numcases.py` (`NumOfCases`).

Each tkinter listbox is modelled by the list of its rows; every method is
translated statement by statement from the Python source.  Python
`list.insert(i, x)` (and `Listbox.insert(i, x)`) is modelled by `insertAt`,
`Listbox.delete(i)` by `List.eraseIdx`, the substring test `a in b` by
`str_in`, and `str.lower()` by `py_lower`.
-/

/-- Python list/listbox `insert(i, x)`: insert `x` before position `i`;
an index at or past the end appends at the end. -/
def insertAt : Nat → α → List α → List α
  | 0, a, l => a :: l
  | _ + 1, a, [] => [a]
  | n + 1, a, x :: t => x :: insertAt n a t

/-- Boolean test that `p` is a leading segment of `l` (character lists). -/
def prefixOfB : List Char → List Char → Bool
  | [], _ => true
  | _ :: _, [] => false
  | a :: p, b :: l => a == b && prefixOfB p l

/-- Boolean test that `p` occurs contiguously inside `l` (character lists). -/
def substrOfB (p : List Char) : List Char → Bool
  | [] => prefixOfB p []
  | b :: l => prefixOfB p (b :: l) || substrOfB p l

/-- Python's substring test `sub in s` on strings. -/
def str_in (sub s : String) : Bool := substrOfB sub.data s.data

/-- Python's `str.lower()`: lowercase every character. -/
def py_lower (s : String) : String := ⟨s.data.map Char.toLower⟩

/-- A condition object of the catalog: a name and its item array
(`condition.name`, `condition.array` in `datatools`). -/
structure Condition where
  name : String
  array : List String
deriving DecidableEq

/-- The state of a `VarWindow` (the Item List): the condition object stored in
`self.condition` and the rows of `self.listbox`. -/
structure VarWindow where
  condition : Condition
  listbox : List String
deriving DecidableEq

/-- The loop body of `VarWindow.build_box`:
`for i in range(len(varlist)): self.listbox.insert(i, varlist[i])`,
running on a box already cleared by `delete(0, "end")`. -/
def VarWindow.build_loop (varlist : List String) (i : Nat) (box : List String) :
    List String :=
  if h : i < varlist.length then
    VarWindow.build_loop varlist (i + 1) (insertAt i (varlist.get ⟨i, h⟩) box)
  else box
termination_by varlist.length - i

/-- `VarWindow.build_box(condition)`: store the condition, clear the listbox,
then insert `varlist[i]` at index `i` for each `i`. -/
def VarWindow.build_box (_w : VarWindow) (condition : Condition) : VarWindow :=
  { condition := condition
    listbox := VarWindow.build_loop condition.array 0 [] }

/-- The loop body of `VarWindow.filter`:
`for var in varlist: if string.lower() in var.lower(): insert(size, var)`. -/
def VarWindow.filter_loop (string : String) (varlist box : List String) :
    List String :=
  varlist.foldl
    (fun box var =>
      if str_in (py_lower string) (py_lower var) then insertAt box.length var box
      else box)
    box

/-- `VarWindow.filter(string)`: re-read `self.condition.array`, clear the
listbox, and append every item whose lowercase form contains
`string.lower()`. -/
def VarWindow.filter (w : VarWindow) (string : String) : VarWindow :=
  { w with listbox := VarWindow.filter_loop string w.condition.array [] }

/-- `VarWindow.get_selected()`: the rows at the currently highlighted indices
(`curselection`), in index order.  tkinter guarantees the indices are valid,
distinct and ascending; out-of-range indices are skipped. -/
def VarWindow.get_selected (w : VarWindow) (curselection : List Nat) :
    List String :=
  curselection.filterMap (fun i => w.listbox[i]?)

/-- `SelectedWindow.add(varlist)`: snapshot the displayed rows once
(`allvars = self.listbox.get(0, "end")`), then append each element of
`varlist` that is absent from that snapshot. -/
def SelectedWindow.add [DecidableEq α] (listbox varlist : List α) : List α :=
  let allvars := listbox
  varlist.foldl
    (fun box var => if var ∈ allvars then box else insertAt box.length var box)
    listbox

/-- Python's membership test `a in l` on lists, as a Boolean. -/
def memB [DecidableEq α] (a : α) : List α → Bool
  | [] => false
  | x :: t => if a = x then true else memB a t

/-- Insert `i` into a list kept in descending order. -/
def insertDesc (i : Nat) : List Nat → List Nat
  | [] => [i]
  | j :: t => if j ≤ i then i :: j :: t else j :: insertDesc i t

/-- Python `index.sort(reverse=True)`: sort a list of indices in descending
order. -/
def sortDesc (l : List Nat) : List Nat := l.foldr insertDesc []

/-- `SelectedWindow.remove()`: take the highlighted indices, sort them in
descending order, and delete each one. -/
def SelectedWindow.remove (listbox : List α) (curselection : List Nat) :
    List α :=
  (sortDesc curselection).foldl (fun box i => box.eraseIdx i) listbox

/-- Specification-side description for `remove`: the rows whose index (counted
from `k`) is not highlighted, kept in their original relative order. -/
def keptRows (l : List α) (k : Nat) (idxs : List Nat) : List α :=
  match l with
  | [] => []
  | a :: t => if k ∈ idxs then keptRows t (k + 1) idxs else a :: keptRows t (k + 1) idxs

/-- A parsed date (the applet only ever compares these values). -/
structure Timestamp where
  year : Nat
  month : Nat
  day : Nat
deriving DecidableEq

/-- Split a character list at every `'-'`. -/
def splitDash : List Char → List (List Char)
  | [] => [[]]
  | c :: t =>
    if c = '-' then [] :: splitDash t
    else
      match splitDash t with
      | [] => [[c]]
      | p :: ps => (c :: p) :: ps

/-- Read a nonempty all-digit character list as a natural number. -/
def parseNatDigits (l : List Char) : Option Nat :=
  if l ≠ [] ∧ l.all Char.isDigit then
    some (l.foldl (fun n c => n * 10 + (c.toNat - '0'.toNat)) 0)
  else none

/-- Modelled from the spec: `pd.to_datetime(text, errors="coerce")` is a
pandas library call, external to this repository.  Per §4.5 it is a lenient
parser that never raises: syntactically invalid text resolves to an absent
bound (`none`, pandas `NaT`), and an ISO-like string `"YYYY-MM-DD"` parses to
that calendar date. -/
def pd_to_datetime_coerce (text : String) : Option Timestamp :=
  match splitDash text.data with
  | [y, m, d] =>
    match parseNatDigits y, parseNatDigits m, parseNatDigits d with
    | some yn, some mn, some dn =>
      if 1 ≤ mn ∧ mn ≤ 12 ∧ 1 ≤ dn ∧ dn ≤ 31 then
        some ⟨yn, mn, dn⟩
      else none
    | _, _, _ => none
  | _ => none

/-- `DateEntry.get_daterange()`: parse the two entry strings with the lenient
parser and return the pair. -/
def DateEntry.get_daterange (from_var to_var : String) :
    Option Timestamp × Option Timestamp :=
  (pd_to_datetime_coerce from_var, pd_to_datetime_coerce to_var)

/-- The externally visible file-system actions of `NumOfCases._open`. -/
inductive FileEffect (α : Type) where
  | to_csv (path : String) (data : α)
  | wb_open (path : String)
deriving DecidableEq

/-- The state of the `NumOfCases` applet that `_open` reads: the stored-result
slot `self._compiled_cases` (the compiled table is opaque, type `α`). -/
structure NumOfCases (α : Type) where
  compiled_cases : Option α
deriving DecidableEq

/-- `NumOfCases.__init__` ends with `self._compiled_cases = None`. -/
def NumOfCases.init : NumOfCases α := ⟨none⟩

/-- `NumOfCases._open()`: if a result is stored, write it to
`"compiled cases.csv"` and open that path with the OS default opener
(`webbrowser.open`); otherwise do nothing.  Returns the emitted file-system
effects together with the (unchanged) state. -/
def NumOfCases._open (st : NumOfCases α) : List (FileEffect α) × NumOfCases α :=
  match st.compiled_cases with
  | none => ([], st)
  | some r =>
    ([FileEffect.to_csv "compiled cases.csv" r,
      FileEffect.wb_open "compiled cases.csv"], st)

/-- The user events the `VarSelector` panel reacts to. -/
inductive GuiEvent where
  | condChange (name : String)
  | filterChange (s : String)
  | addAction (curselection : List Nat)
  | removeAction (curselection : List Nat)
deriving DecidableEq

/-- Whether an event is a filter-text change. -/
def GuiEvent.isFilterChange : GuiEvent → Bool
  | .filterChange _ => true
  | _ => false

/-- The state of a `VarSelector` panel: the condition picker's displayed name,
the item-list window, the filter text, and the accumulated-selection rows. -/
structure VarSelector where
  condition_selector : String
  var_window : VarWindow
  filter_text : String
  selected_window : List (String × String)
deriving DecidableEq

/-- One event step of the panel, wired as in `VarSelector.__init__`:
a picker change sets the displayed name and then runs `_condition_trace`
(`build_box(condition_dict[name])`); a filter change sets the text and runs
`_filter_trace` (`filter(string)`); `add` tags the highlighted item rows with
the picker's current name and forwards them to `SelectedWindow.add`;
`remove` forwards the highlighted selection rows to `SelectedWindow.remove`.
`condition_dict` is the catalog's name lookup. -/
def VarSelector.step (condition_dict : String → Condition) (st : VarSelector) :
    GuiEvent → VarSelector
  | .condChange name =>
    { st with
      condition_selector := name
      var_window := st.var_window.build_box (condition_dict name) }
  | .filterChange s =>
    { st with
      filter_text := s
      var_window := st.var_window.filter s }
  | .addAction sel =>
    let selected := st.var_window.get_selected sel
    let addlist := selected.map (fun i => (st.condition_selector, i))
    { st with selected_window := SelectedWindow.add st.selected_window addlist }
  | .removeAction sel =>
    { st with selected_window := SelectedWindow.remove st.selected_window sel }

/-- Run a sequence of events through the panel. -/
def VarSelector.run (condition_dict : String → Condition) (st : VarSelector)
    (evs : List GuiEvent) : VarSelector :=
  evs.foldl (VarSelector.step condition_dict) st

/-- A one-condition catalog used to exercise the panel on concrete inputs. -/
def demoDict : String → Condition :=
  fun name =>
    if name = "Diagnosis" then ⟨"Diagnosis", ["flu", "cold", "covid"]⟩
    else ⟨name, []⟩

/-- A concrete panel state used to exercise the panel on concrete inputs. -/
def demoState : VarSelector :=
  { condition_selector := "Diagnosis"
    var_window :=
      { condition := ⟨"Diagnosis", ["flu", "cold", "covid"]⟩
        listbox := ["flu", "cold", "covid"] }
    filter_text := ""
    selected_window := [] }

/-! ### Basic lemmas about the embedded loops -/

theorem insertAt_length (l : List α) (a : α) : insertAt l.length a l = l ++ [a] := by
  induction l with
  | nil => rfl
  | cons x t ih => simp [insertAt, ih]

theorem build_loop_take :
    ∀ (n : Nat) (varlist : List String) (i : Nat), varlist.length - i ≤ n →
      VarWindow.build_loop varlist i (varlist.take i) = varlist := by
  intro n
  induction n with
  | zero =>
    intro varlist i h
    rw [VarWindow.build_loop]
    have hge : ¬ i < varlist.length := by omega
    simp only [hge, dite_false]
    exact List.take_of_length_le (by omega)
  | succ n ih =>
    intro varlist i h
    rw [VarWindow.build_loop]
    by_cases hlt : i < varlist.length
    · simp only [hlt, dite_true]
      have hlen : (varlist.take i).length = i := by
        simp [List.length_take]; omega
      have hins : insertAt i (varlist.get ⟨i, hlt⟩) (varlist.take i)
          = varlist.take (i + 1) := by
        calc insertAt i (varlist.get ⟨i, hlt⟩) (varlist.take i)
            = insertAt (varlist.take i).length (varlist.get ⟨i, hlt⟩)
                (varlist.take i) := by rw [hlen]
          _ = varlist.take i ++ [varlist.get ⟨i, hlt⟩] := insertAt_length _ _
          _ = varlist.take (i + 1) := by
              rw [← List.take_concat_get varlist i hlt, List.concat_eq_append]
              rfl
      rw [hins]
      exact ih varlist (i + 1) (by omega)
    · simp only [hlt, dite_false]
      exact List.take_of_length_le (by omega)

theorem build_box_listbox (w : VarWindow) (c : Condition) :
    (w.build_box c).listbox = c.array := by
  have := build_loop_take c.array.length c.array 0 (by omega)
  simpa [VarWindow.build_box] using this

theorem build_box_condition (w : VarWindow) (c : Condition) :
    (w.build_box c).condition = c := rfl

theorem filter_loop_eq_filter (string : String) :
    ∀ (varlist box : List String),
      VarWindow.filter_loop string varlist box
        = box ++ varlist.filter (fun v => str_in (py_lower string) (py_lower v)) := by
  intro varlist
  induction varlist with
  | nil => intro box; simp [VarWindow.filter_loop]
  | cons var rest ih =>
    intro box
    by_cases hv : str_in (py_lower string) (py_lower var)
    · have h1 : VarWindow.filter_loop string (var :: rest) box
          = VarWindow.filter_loop string rest (box ++ [var]) := by
        simp [VarWindow.filter_loop, hv, insertAt_length]
      rw [h1, ih]
      simp [List.filter_cons, hv]
    · have h1 : VarWindow.filter_loop string (var :: rest) box
          = VarWindow.filter_loop string rest box := by
        simp [VarWindow.filter_loop, hv]
      rw [h1, ih]
      simp [List.filter_cons, hv]

theorem filter_listbox (w : VarWindow) (string : String) :
    (w.filter string).listbox
      = w.condition.array.filter (fun v => str_in (py_lower string) (py_lower v)) := by
  simpa [VarWindow.filter] using filter_loop_eq_filter string w.condition.array []

theorem filter_condition (w : VarWindow) (string : String) :
    (w.filter string).condition = w.condition := rfl

theorem prefixOfB_nil (l : List Char) : prefixOfB [] l = true := by
  cases l <;> rfl

theorem substrOfB_nil (l : List Char) : substrOfB [] l = true := by
  cases l <;> simp [substrOfB, prefixOfB_nil]

theorem str_in_empty (s : String) : str_in (py_lower "") s = true := by
  exact substrOfB_nil s.data

/-- C2: after `build_box(c)`, `filter(s)` displays exactly the elements of
`c`'s item array whose lowercase form contains `s` lowercased, in the order
of `c`'s item array. -/
theorem C2_filter_after_build (w : VarWindow) (c : Condition) (s : String) :
    ((w.build_box c).filter s).listbox
      = c.array.filter (fun v => str_in (py_lower s) (py_lower v)) := by
  rw [filter_listbox, build_box_condition]

/-- C5: for the condition currently held by the Item List, `filter("")`
displays the same sequence as `build_box` of that condition: the full
unfiltered item array. -/
theorem C5_filter_empty_eq_build (w : VarWindow) :
    (w.filter "").listbox = (w.build_box w.condition).listbox := by
  rw [filter_listbox, build_box_listbox]
  exact List.filter_eq_self.mpr (fun v _ => str_in_empty (py_lower v))

/-- C9: filtering is not cumulative: `build_box(c); filter(s1); filter(s2)`
displays the same sequence as `build_box(c); filter(s2)` — each `filter` call
restarts from the stored condition's full item array. -/
theorem C9_filter_not_cumulative (w : VarWindow) (c : Condition) (s1 s2 : String) :
    (((w.build_box c).filter s1).filter s2).listbox
      = ((w.build_box c).filter s2).listbox := by
  rw [filter_listbox, filter_listbox, filter_condition]

/-! ### The Accumulated Selection List: `add` -/

theorem memB_iff [DecidableEq α] (a : α) : ∀ (l : List α), memB a l = true ↔ a ∈ l := by
  intro l
  induction l with
  | nil => simp [memB]
  | cons x t ih =>
    by_cases h : a = x
    · simp [memB, h]
    · simp [memB, h, ih]

theorem add_loop_eq_append_filter [DecidableEq α] (allvars : List α) :
    ∀ (varlist box : List α),
      varlist.foldl
        (fun box var => if var ∈ allvars then box else insertAt box.length var box)
        box
      = box ++ varlist.filter (fun v => !memB v allvars) := by
  intro varlist
  induction varlist with
  | nil => intro box; simp
  | cons var rest ih =>
    intro box
    rw [List.foldl_cons]
    by_cases hv : var ∈ allvars
    · have hb : memB var allvars = true := (memB_iff var allvars).mpr hv
      rw [if_pos hv, ih]
      simp [List.filter_cons, hb]
    · have hb : memB var allvars = false := by
        rcases Bool.eq_false_or_eq_true (memB var allvars) with h | h
        · exact absurd ((memB_iff var allvars).mp h) hv
        · exact h
      rw [if_neg hv, insertAt_length, ih]
      simp [List.filter_cons, hb]

theorem add_eq_append_filter [DecidableEq α] (listbox varlist : List α) :
    SelectedWindow.add listbox varlist
      = listbox ++ varlist.filter (fun v => !memB v listbox) :=
  add_loop_eq_append_filter listbox varlist listbox

theorem add_nodup [DecidableEq α] (listbox varlist : List α)
    (h1 : listbox.Nodup) (h2 : varlist.Nodup) :
    (SelectedWindow.add listbox varlist).Nodup := by
  rw [add_eq_append_filter]
  refine List.nodup_append.mpr ⟨h1, h2.filter _, ?_⟩
  intro a ha hafil
  have hfil := (List.mem_filter.mp hafil).2
  have hb : memB a listbox = true := (memB_iff a listbox).mpr ha
  rw [hb] at hfil
  simp at hfil

theorem foldl_add_nodup [DecidableEq α] :
    ∀ (adds : List (List α)) (listbox : List α), listbox.Nodup →
      (∀ l ∈ adds, l.Nodup) → (adds.foldl SelectedWindow.add listbox).Nodup := by
  intro adds
  induction adds with
  | nil => intro listbox h _; exact h
  | cons l rest ih =>
    intro listbox h hall
    rw [List.foldl_cons]
    exact ih _ (add_nodup listbox l h (hall l (List.mem_cons_self l rest)))
      (fun x hx => hall x (List.mem_cons_of_mem l hx))

/-- C4: `SelectedWindow.add` leaves every already-displayed entry in place and
appends, in input order, exactly the input entries absent from the displayed
contents at the time of the call. -/
theorem C4_add_appends_new (listbox varlist : List (String × String)) :
    SelectedWindow.add listbox varlist
      = listbox ++ varlist.filter (fun v => !memB v listbox) :=
  add_eq_append_filter listbox varlist

/-- C1 fails as stated: a single `add` whose input repeats a pair that is not
yet displayed inserts the pair twice, because the membership check uses a
snapshot of the displayed rows taken before the loop. -/
theorem C1_counterexample :
    ¬ (List.foldl SelectedWindow.add ([] : List (String × String))
        [[("Diagnosis", "flu"), ("Diagnosis", "flu")]]).Nodup := by
  decide

/-- C1 (amended): for every sequence of `add` operations whose individual
input sequences contain no repeated pair, the Accumulated Selection List
(started empty) never contains two entries with equal
(conditionName, itemName) pairs. -/
theorem C1_no_duplicates (adds : List (List (String × String)))
    (h : ∀ l ∈ adds, l.Nodup) :
    (adds.foldl SelectedWindow.add []).Nodup :=
  foldl_add_nodup adds [] List.nodup_nil h

theorem C1_no_duplicates_witness :
    (∀ l ∈ [[("Diagnosis", "flu")], [("Diagnosis", "flu"), ("Diagnosis", "cold")]],
        List.Nodup l) ∧
      (List.foldl SelectedWindow.add ([] : List (String × String))
        [[("Diagnosis", "flu")], [("Diagnosis", "flu"), ("Diagnosis", "cold")]]).Nodup :=
  ⟨by decide, C1_no_duplicates _ (by decide)⟩

/-! ### The Accumulated Selection List: `remove` -/

theorem keptRows_nil_idx (l : List α) : ∀ (k : Nat), keptRows l k [] = l := by
  induction l with
  | nil => intro k; rfl
  | cons a t ih => intro k; simp [keptRows, ih]

theorem keptRows_of_lt :
    ∀ (t : List α) (k : Nat) (s : List Nat), (∀ j ∈ s, j < k) → keptRows t k s = t := by
  intro t
  induction t with
  | nil => intro k s _; rfl
  | cons a t ih =>
    intro k s h
    have hk : k ∉ s := fun hks => absurd (h k hks) (lt_irrefl k)
    simp only [keptRows, if_neg hk]
    rw [ih (k + 1) s (fun j hj => Nat.lt_succ_of_lt (h j hj))]

theorem keptRows_congr :
    ∀ (l : List α) (k : Nat) (s₁ s₂ : List Nat),
      (∀ j, j ∈ s₁ ↔ j ∈ s₂) → keptRows l k s₁ = keptRows l k s₂ := by
  intro l
  induction l with
  | nil => intro k s₁ s₂ _; rfl
  | cons a t ih =>
    intro k s₁ s₂ h
    simp only [keptRows]
    by_cases hk : k ∈ s₁
    · rw [if_pos hk, if_pos ((h k).mp hk), ih (k + 1) s₁ s₂ h]
    · rw [if_neg hk, if_neg (fun hk2 => hk ((h k).mpr hk2)), ih (k + 1) s₁ s₂ h]

theorem keptRows_eraseIdx :
    ∀ (l : List α) (k d : Nat) (rest : List Nat), (∀ j ∈ rest, j < k + d) →
      keptRows (l.eraseIdx d) k rest = keptRows l k ((k + d) :: rest) := by
  intro l
  induction l with
  | nil => intro k d rest _; simp [List.eraseIdx, keptRows]
  | cons a t ih =>
    intro k d rest h
    cases d with
    | zero =>
      rw [List.eraseIdx_cons_zero]
      have h0 : ∀ j ∈ rest, j < k := by simpa using h
      rw [keptRows_of_lt t k rest h0]
      have hk : k ∈ (k + 0) :: rest := by simp
      simp only [keptRows, if_pos hk]
      refine (keptRows_of_lt t (k + 1) ((k + 0) :: rest) ?_).symm
      intro j hj
      rcases List.mem_cons.mp hj with h1 | h2
      · omega
      · have := h0 j h2; omega
    | succ d' =>
      rw [List.eraseIdx_cons_succ]
      have heq : k + 1 + d' = k + (d' + 1) := by omega
      have hrec : keptRows (t.eraseIdx d') (k + 1) rest
          = keptRows t (k + 1) ((k + (d' + 1)) :: rest) := by
        rw [← heq]
        exact ih (k + 1) d' rest (fun j hj => by have := h j hj; omega)
      simp only [keptRows]
      by_cases hk : k ∈ rest
      · rw [if_pos hk, if_pos (List.mem_cons_of_mem _ hk), hrec]
      · rw [if_neg hk,
          if_neg (by simp only [List.mem_cons, not_or]; exact ⟨by omega, hk⟩), hrec]

theorem foldl_eraseIdx_keptRows :
    ∀ (idxs : List Nat) (l : List α), idxs.Pairwise (· > ·) →
      idxs.foldl (fun box i => box.eraseIdx i) l = keptRows l 0 idxs := by
  intro idxs
  induction idxs with
  | nil => intro l _; exact (keptRows_nil_idx l 0).symm
  | cons i rest ih =>
    intro l hp
    rw [List.foldl_cons, ih (l.eraseIdx i) (List.pairwise_cons.mp hp).2]
    have hlt : ∀ j ∈ rest, j < 0 + i := by
      intro j hj
      have := (List.pairwise_cons.mp hp).1 j hj
      omega
    have := keptRows_eraseIdx l 0 i rest hlt
    simpa using this

theorem mem_insertDesc (i : Nat) :
    ∀ (l : List Nat) (j : Nat), j ∈ insertDesc i l ↔ j = i ∨ j ∈ l := by
  intro l
  induction l with
  | nil => intro j; simp [insertDesc]
  | cons x t ih =>
    intro j
    by_cases h : x ≤ i
    · simp [insertDesc, h, List.mem_cons]
    · simp only [insertDesc, if_neg h, List.mem_cons, ih]
      tauto

theorem mem_sortDesc : ∀ (l : List Nat) (j : Nat), j ∈ sortDesc l ↔ j ∈ l := by
  intro l
  induction l with
  | nil => intro j; simp [sortDesc]
  | cons x t ih =>
    intro j
    show j ∈ insertDesc x (sortDesc t) ↔ _
    rw [mem_insertDesc, ih]
    simp [List.mem_cons]

theorem insertDesc_pairwise (i : Nat) :
    ∀ (l : List Nat), l.Pairwise (· > ·) → i ∉ l →
      (insertDesc i l).Pairwise (· > ·) := by
  intro l
  induction l with
  | nil => intro _ _; simp [insertDesc]
  | cons x t ih =>
    intro hp hni
    have hxt := List.pairwise_cons.mp hp
    by_cases h : x ≤ i
    · have hxi : x < i := by
        rcases Nat.lt_or_ge x i with h1 | h1
        · exact h1
        · exfalso
          apply hni
          have hxi2 : x = i := by omega
          rw [← hxi2]
          exact List.mem_cons_self x t
      rw [insertDesc, if_pos h]
      refine List.pairwise_cons.mpr ⟨?_, hp⟩
      intro j hj
      rcases List.mem_cons.mp hj with h1 | h2
      · omega
      · have := hxt.1 j h2; omega
    · rw [insertDesc, if_neg h]
      refine List.pairwise_cons.mpr ⟨?_, ?_⟩
      · intro j hj
        rcases (mem_insertDesc i t j).mp hj with h1 | h2
        · omega
        · exact hxt.1 j h2
      · exact ih hxt.2 (fun hit => hni (List.mem_cons_of_mem x hit))

theorem sortDesc_pairwise : ∀ (l : List Nat), l.Nodup → (sortDesc l).Pairwise (· > ·) := by
  intro l
  induction l with
  | nil => intro _; simp [sortDesc]
  | cons x t ih =>
    intro h
    have hx := List.nodup_cons.mp h
    show (insertDesc x (sortDesc t)).Pairwise (· > ·)
    exact insertDesc_pairwise x (sortDesc t) (ih hx.2)
      (fun hmem => hx.1 ((mem_sortDesc t x).mp hmem))

/-- C3: for distinct highlighted indices, `remove` deletes exactly the
highlighted rows (the code processes the indices in descending order), and
every non-highlighted row remains, in its original relative order. -/
theorem C3_remove_exact {α : Type} (l : List α) (sel : List Nat)
    (h : sel.Nodup) :
    SelectedWindow.remove l sel = keptRows l 0 sel := by
  show (sortDesc sel).foldl (fun box i => box.eraseIdx i) l = _
  rw [foldl_eraseIdx_keptRows (sortDesc sel) l (sortDesc_pairwise sel h)]
  exact keptRows_congr l 0 _ _ (fun j => mem_sortDesc sel j)

theorem C3_remove_exact_witness :
    ([0, 2] : List Nat).Nodup ∧
      SelectedWindow.remove ["a", "b", "c"] [0, 2] = keptRows ["a", "b", "c"] 0 [0, 2] :=
  ⟨by decide, C3_remove_exact ["a", "b", "c"] [0, 2] (by decide)⟩

/-- C10: with no rows highlighted, `remove` leaves the displayed contents
entirely unchanged. -/
theorem C10_remove_nothing {α : Type} (l : List α) :
    SelectedWindow.remove l [] = l := rfl

/-! ### The Selector Panel wiring and the applet panel -/

theorem run_no_filter (condition_dict : String → Condition) :
    ∀ (evs : List GuiEvent) (st : VarSelector),
      (∀ e ∈ evs, e.isFilterChange = false) →
      st.var_window.listbox = (condition_dict st.condition_selector).array →
      (VarSelector.run condition_dict st evs).var_window.listbox
        = (condition_dict
            (VarSelector.run condition_dict st evs).condition_selector).array := by
  intro evs
  induction evs with
  | nil => intro st _ hst; exact hst
  | cons e rest ih =>
    intro st h hst
    have hrest : ∀ e' ∈ rest, e'.isFilterChange = false :=
      fun e' he' => h e' (List.mem_cons_of_mem e he')
    show (VarSelector.run condition_dict (VarSelector.step condition_dict st e) rest).var_window.listbox = _
    cases e with
    | condChange name =>
      exact ih _ hrest (build_box_listbox st.var_window (condition_dict name))
    | filterChange s =>
      have := h (.filterChange s) (List.mem_cons_self _ rest)
      simp [GuiEvent.isFilterChange] at this
    | addAction sel =>
      exact ih _ hrest hst
    | removeAction sel =>
      exact ih _ hrest hst

/-- C6: after a condition-picker change event, and as long as no filter-text
change event occurs, the Item List displays the full item array of the
currently picked condition — the pending filter text is not reapplied by the
condition change. -/
theorem C6_cond_change_full_array (condition_dict : String → Condition)
    (st : VarSelector) (name : String) (evs : List GuiEvent)
    (h : ∀ e ∈ evs, e.isFilterChange = false) :
    (VarSelector.run condition_dict
        (VarSelector.step condition_dict st (.condChange name)) evs).var_window.listbox
      = (condition_dict
          (VarSelector.run condition_dict
            (VarSelector.step condition_dict st (.condChange name)) evs).condition_selector).array :=
  run_no_filter condition_dict evs _ h
    (build_box_listbox st.var_window (condition_dict name))

theorem C6_cond_change_full_array_witness :
    (∀ e ∈ [GuiEvent.addAction [1, 2], GuiEvent.removeAction [0]],
        e.isFilterChange = false) ∧
      (VarSelector.run demoDict
          (VarSelector.step demoDict demoState (.condChange "Diagnosis"))
          [GuiEvent.addAction [1, 2], GuiEvent.removeAction [0]]).var_window.listbox
        = (demoDict
            (VarSelector.run demoDict
              (VarSelector.step demoDict demoState (.condChange "Diagnosis"))
              [GuiEvent.addAction [1, 2], GuiEvent.removeAction [0]]).condition_selector).array :=
  ⟨by decide,
    C6_cond_change_full_array demoDict demoState "Diagnosis"
      [GuiEvent.addAction [1, 2], GuiEvent.removeAction [0]] (by decide)⟩

/-- C7: `get_daterange` is total (it never raises): on two syntactically
invalid strings it returns two absent bounds, and on the ISO-like strings
"2021-01-01" and "2021-12-31" it returns the parsed dates. -/
theorem C7_get_daterange_soft_fail :
    DateEntry.get_daterange "not a date" "also/invalid" = (none, none) ∧
      DateEntry.get_daterange "2021-01-01" "2021-12-31"
        = (some ⟨2021, 1, 1⟩, some ⟨2021, 12, 31⟩) := by
  exact ⟨by decide, by decide⟩

/-- C8: with the stored-result slot still holding its initial empty value,
`_open` emits no file-system effect and leaves the state unchanged; with a
stored result it writes the fixed-name CSV file "compiled cases.csv" and
invokes the OS default opener on that same path. -/
theorem C8_open_no_result_noop (α : Type) (r : α) :
    NumOfCases._open (NumOfCases.init : NumOfCases α) = ([], NumOfCases.init) ∧
      NumOfCases._open ({ compiled_cases := some r } : NumOfCases α)
        = ([FileEffect.to_csv "compiled cases.csv" r,
            FileEffect.wb_open "compiled cases.csv"],
           { compiled_cases := some r }) :=
  ⟨rfl, rfl⟩
